import Mathlib

/-!
Verification development for the wasm linker Writer (src/wasm/Writer.cpp of
SnaxFoundation/lld).  The definitions below are a shallow embedding of the
functions of that file: byte streams are `List Nat` (each entry one byte),
machine integers are `Nat`/`Int`, the LLVM `error()` / `fatal()` sinks are
modelled by an explicit diagnostic type, and the mutating loops of the C++
are explicit folds over the same data.
-/

namespace LldWasm

set_option maxRecDepth 100000

/-- ULEB128 worker, structurally recursive on a fuel argument that the
wrapper instantiates large enough (uleb128_eq below shows the pair
implements exactly the llvm recurrence). -/
def ulebGo : Nat → Nat → List Nat
  | 0, n => [n % 128]
  | fuel + 1, n => if n < 128 then [n] else (n % 128 + 128) :: ulebGo fuel (n / 128)

/-- ULEB128 encoding of an unsigned value (llvm `encodeULEB128` via
`writeUleb128`): emit seven bits at a time, low first, continuation bit 0x80
on every byte but the last. -/
def uleb128 (n : Nat) : List Nat :=
  ulebGo n n

theorem ulebGo_congr : ∀ f1 f2 n : Nat, n ≤ f1 → n ≤ f2 → ulebGo f1 n = ulebGo f2 n := by
  intro f1
  induction f1 with
  | zero =>
    intro f2 n h1 h2
    have hn : n = 0 := Nat.le_zero.mp h1
    subst hn
    cases f2 with
    | zero => rfl
    | succ f2 => simp [ulebGo]
  | succ f1 ih =>
    intro f2 n h1 h2
    cases f2 with
    | zero =>
      have hn : n = 0 := Nat.le_zero.mp h2
      subst hn
      simp [ulebGo]
    | succ f2 =>
      simp only [ulebGo]
      by_cases hlt : n < 128
      · simp [hlt]
      · simp only [if_neg hlt]
        have hrec : n / 128 ≤ f1 := by omega
        have hrec2 : n / 128 ≤ f2 := by omega
        rw [ih f2 (n / 128) hrec hrec2]

/-- The wrapper satisfies the llvm encodeULEB128 recurrence. -/
theorem uleb128_eq (n : Nat) :
    uleb128 n = if n < 128 then [n] else (n % 128 + 128) :: uleb128 (n / 128) := by
  unfold uleb128
  cases hn : n with
  | zero => simp [ulebGo]
  | succ m =>
    simp only [ulebGo]
    by_cases hlt : m + 1 < 128
    · simp [hlt]
    · simp only [if_neg hlt]
      have h1 : (m + 1) / 128 ≤ m := by omega
      rw [ulebGo_congr m ((m + 1) / 128) ((m + 1) / 128) h1 (Nat.le_refl _)]

/-- SLEB128 worker, structurally recursive on fuel (sleb128_eq below shows
the pair implements exactly the llvm recurrence). -/
def slebGo : Nat → Int → List Nat
  | 0, v => [(v % 128).toNat]
  | fuel + 1, v =>
    if (v / 128 = 0 ∧ (v % 128).toNat < 64) ∨ (v / 128 = -1 ∧ 64 ≤ (v % 128).toNat) then
      [(v % 128).toNat]
    else ((v % 128).toNat + 128) :: slebGo fuel (v / 128)

/-- SLEB128 encoding of a signed value (llvm `encodeSLEB128`): seven bits at
a time with arithmetic shift; stop once the remaining value is the pure sign
extension of the bits already emitted. -/
def sleb128 (v : Int) : List Nat :=
  slebGo v.natAbs v

theorem slebGo_congr : ∀ (f1 : Nat) (f2 : Nat) (v : Int),
    v.natAbs ≤ f1 → v.natAbs ≤ f2 → slebGo f1 v = slebGo f2 v := by
  intro f1
  induction f1 with
  | zero =>
    intro f2 v h1 h2
    have hv : v = 0 := by omega
    subst hv
    cases f2 with
    | zero => rfl
    | succ f2 => simp [slebGo]
  | succ f1 ih =>
    intro f2 v h1 h2
    cases f2 with
    | zero =>
      have hv : v = 0 := by omega
      subst hv
      simp [slebGo]
    | succ f2 =>
      simp only [slebGo]
      by_cases hstop : (v / 128 = 0 ∧ (v % 128).toNat < 64) ∨ (v / 128 = -1 ∧ 64 ≤ (v % 128).toNat)
      · simp [hstop]
      · simp only [if_neg hstop]
        have hrec : (v / 128).natAbs ≤ f1 := by omega
        have hrec2 : (v / 128).natAbs ≤ f2 := by omega
        rw [ih f2 (v / 128) hrec hrec2]

/-- The wrapper satisfies the llvm encodeSLEB128 recurrence. -/
theorem sleb128_eq (v : Int) :
    sleb128 v =
      if (v / 128 = 0 ∧ (v % 128).toNat < 64) ∨ (v / 128 = -1 ∧ 64 ≤ (v % 128).toNat) then
        [(v % 128).toNat]
      else ((v % 128).toNat + 128) :: sleb128 (v / 128) := by
  unfold sleb128
  cases hf : v.natAbs with
  | zero =>
    have hv : v = 0 := by omega
    subst hv
    simp [slebGo]
  | succ m =>
    simp only [slebGo]
    by_cases hstop : (v / 128 = 0 ∧ (v % 128).toNat < 64) ∨ (v / 128 = -1 ∧ 64 ≤ (v % 128).toNat)
    · simp [hstop]
    · simp only [if_neg hstop]
      have h1 : (v / 128).natAbs ≤ m := by omega
      rw [slebGo_congr m (v / 128).natAbs (v / 128) h1 (Nat.le_refl _)]

/-- Reinterpret a uint64 bit pattern as an int64 (the `(int64_t)` casts in
createDispatchFunction). -/
def toInt64 (n : Nat) : Int :=
  if n % 2 ^ 64 < 2 ^ 63 then ((n % 2 ^ 64 : Nat) : Int)
  else ((n % 2 ^ 64 : Nat) : Int) - 2 ^ 64

/-- Modelled from the spec: `snax::cdt::char_to_symbol` of `snax/utils.hpp`
(the header is not under src/); glossary entry `name(s)`.  Letters a..z map
to 6..31, digits 1..5 map to 1..5, everything else to 0. -/
def char_to_symbol (c : Char) : Nat :=
  if 97 ≤ c.toNat ∧ c.toNat ≤ 122 then c.toNat - 97 + 6
  else if 49 ≤ c.toNat ∧ c.toNat ≤ 53 then c.toNat - 49 + 1
  else 0

/-- Modelled from the spec: helper of `string_to_name`; character i < 12
contributes five bits at position 64 - 5*(i+1), character 12 contributes its
low four bits, later characters are ignored. -/
def string_to_name_aux : List Char → Nat → Nat
  | [], _ => 0
  | c :: cs, i =>
    if i < 12 then char_to_symbol c % 32 * 2 ^ (64 - 5 * (i + 1)) + string_to_name_aux cs (i + 1)
    else if i = 12 then char_to_symbol c % 16
    else 0

/-- Modelled from the spec: `snax::cdt::string_to_name` of `snax/utils.hpp`
(not under src/): the platform's 13-character base-32 encoding of a string
into a 64-bit integer (spec glossary, `name(s)`). -/
def string_to_name (s : String) : Nat :=
  string_to_name_aux s.data 0

/-! Opcode and error constants of Writer.cpp. -/

def OPCODE_CALL : Nat := 0x10
def OPCODE_IF : Nat := 0x04
def OPCODE_ELSE : Nat := 0x05
def OPCODE_END : Nat := 0x0b
def OPCODE_GET_LOCAL : Nat := 0x20
def OPCODE_I32_EQ : Nat := 0x46
def OPCODE_I64_EQ : Nat := 0x51
def OPCODE_I64_NE : Nat := 0x52
def OPCODE_I32_CONST : Nat := 0x41
def OPCODE_I64_CONST : Nat := 0x42
def SNAX_COMPILER_ERROR_BASE : Nat := 8000000000000000000
def SNAX_ERROR_NO_ACTION : Nat := SNAX_COMPILER_ERROR_BASE
def SNAX_ERROR_ONERROR : Nat := SNAX_COMPILER_ERROR_BASE + 1
def kInitialTableOffset : Nat := 1
def kStackAlignment : Nat := 16
def WasmPageSize : Nat := 65536

/-! String helpers for the ad-hoc `find(":")` / `substr` parsing of
createDispatchFunction. -/

/-- `str.substr(0, str.find(":"))`: everything before the first colon, the
whole string when there is none (`find` returns npos and `substr` clamps). -/
def takeBeforeColon : List Char → List Char
  | [] => []
  | c :: cs => if c = ':' then [] else c :: takeBeforeColon cs

/-- Position of the first colon, `std::string::find(":")`. -/
def findColon : List Char → Option Nat
  | [] => none
  | c :: cs => if c = ':' then some 0 else (findColon cs).map (· + 1)

/-- `str.substr(str.find(":") + 1)`: when a colon exists, everything after
it; when none exists, npos + 1 wraps to 0 and the whole string results. -/
def dropThroughColon (l : List Char) : List Char :=
  match findColon l with
  | some i => l.drop (i + 1)
  | none => l

/-- The notify-entry split of create_notify_dispatch: with
`idx = snotif.find(":")`, code_name is `substr(0, idx)` and the rest is
`substr(idx + 2)` (skipping the expected `::`).  When no colon exists,
npos + 2 wraps to 1; `List.drop` clamps where the C++ `substr` would throw
past the end, a corner no claim exercises. -/
def parseNotify (s : String) : String × String :=
  match findColon s.data with
  | some i => (String.mk (s.data.take i), String.mk (s.data.drop (i + 2)))
  | none => (s, String.mk (s.data.drop 1))

/-! The dispatcher synthesizer, Writer::createDispatchFunction.  Object
files contribute their `snax_actions` / `snax_notify` string lists; the
symbol-table lookups of the function (`Symtab->find` followed by
`getFunctionIndex`, never null-checked for the dispatch targets) are
modelled by the `findIdx` environment field. -/

structure SnaxFile where
  snaxActions : List String
  snaxNotify : List String
deriving DecidableEq

structure DispatchEnv where
  files : List SnaxFile
  findIdx : String → Nat
  assertIdx : Nat
  postIdx : Option Nat
  preIdx : Option Nat
  ctorsIdx : Option Nat
  dtorsIdx : Option Nat

/-- The bytes the create_if helper writes before the callee index: the
optional ELSE, the i64 constant `name(actname)`, the comparison with local 2
(action), the void if, and the two call arguments (locals 0 and 1). -/
def create_if_head (needElse : Bool) (str : String) : List Nat :=
  (if needElse then [OPCODE_ELSE] else []) ++
  [OPCODE_I64_CONST] ++ sleb128 (toInt64 (string_to_name (String.mk (takeBeforeColon str.data)))) ++
  [OPCODE_GET_LOCAL] ++ uleb128 2 ++
  [OPCODE_I64_EQ, OPCODE_IF, 0x40] ++
  [OPCODE_GET_LOCAL] ++ uleb128 0 ++
  [OPCODE_GET_LOCAL] ++ uleb128 1 ++
  [OPCODE_CALL]

/-- The create_if helper exactly as written: the callee is looked up by the
substring after the colon, its `uint32_t` function index is guarded by
`index >= 0`, and the else branch throws the internal error.  `findIdx`
stands for whatever `getFunctionIndex` returns on the unchecked
`Symtab->find` result. -/
def create_if_checked (findIdx : String → Nat) (needElse : Bool) (str : String) :
    Except String (List Nat) :=
  let index := findIdx (String.mk (dropThroughColon str.data))
  if 0 ≤ index then Except.ok (create_if_head needElse str ++ uleb128 index)
  else Except.error ("wasm_ld internal error function not found")

/-- The bytes create_if emits (the branch its guard always takes). -/
def create_if (findIdx : String → Nat) (needElse : Bool) (str : String) : List Nat :=
  create_if_head needElse str ++ uleb128 (findIdx (String.mk (dropThroughColon str.data)))

/-! Action dispatch: the loop over all object files' snax_actions with the
`has_dispatched` first-occurrence set. -/

structure ActState where
  bytes : List Nat
  seen : List String
  cnt : Nat
  needElse : Bool

/-- One `snax_actions` entry: skipped when already dispatched, otherwise
create_if is emitted and the counter and need_else flag advance. -/
def actStep (findIdx : String → Nat) (st : ActState) (act : String) : ActState :=
  if act ∈ st.seen then st
  else ⟨st.bytes ++ create_if findIdx st.needElse act, act :: st.seen, st.cnt + 1, true⟩

/-- The nested loop over files and their snax_actions lists. -/
def actLoop (findIdx : String → Nat) (files : List SnaxFile) : ActState :=
  files.foldl (fun st f => f.snaxActions.foldl (actStep findIdx) st) ⟨[], [], 0, false⟩

/-- Writer::createDispatchFunction, create_action_dispatch lambda. -/
def create_action_dispatch (env : DispatchEnv) : List Nat :=
  let st := actLoop env.findIdx env.files
  st.bytes ++
  (if st.cnt > 0 then [OPCODE_ELSE] else []) ++
  [OPCODE_GET_LOCAL] ++ uleb128 0 ++
  [OPCODE_I64_CONST] ++ sleb128 (toInt64 (string_to_name "snax")) ++
  [OPCODE_I64_NE, OPCODE_IF, 0x40] ++
  [OPCODE_I32_CONST] ++ uleb128 0 ++
  [OPCODE_I64_CONST] ++ uleb128 SNAX_ERROR_NO_ACTION ++
  [OPCODE_CALL] ++ uleb128 env.assertIdx ++
  (match env.postIdx with
   | some p =>
     [OPCODE_ELSE, OPCODE_GET_LOCAL] ++ uleb128 0 ++
     [OPCODE_GET_LOCAL] ++ uleb128 1 ++
     [OPCODE_GET_LOCAL] ++ uleb128 2 ++
     [OPCODE_CALL] ++ uleb128 p
   | none => []) ++
  [OPCODE_END] ++
  List.replicate st.cnt OPCODE_END

/-! Notify dispatch: registration loop, std::map of handlers keyed by
code name, onerror probe, and emission. -/

/-- Sorted-insertion into the `std::map<std::string, std::vector<...>>`:
append to the vector of an existing key, otherwise place the new key at its
ordered position. -/
def mapInsert (k v : String) : List (String × List String) → List (String × List String)
  | [] => [(k, [v])]
  | (k2, vs) :: rest =>
    if k = k2 then (k2, vs ++ [v]) :: rest
    else if k < k2 then (k, [v]) :: (k2, vs) :: rest
    else (k2, vs) :: mapInsert k v rest

/-- `notify_handlers[k]` read after the loops: the stored vector, or empty
when the key is absent (operator[] default-constructs; the insertion it
performs can no longer be observed). -/
def mapGet (m : List (String × List String)) (k : String) : List String :=
  match m.find? (fun p => p.1 = k) with
  | some p => p.2
  | none => []

structure NotState where
  seen : List String
  cnt : Nat
  handlers : List (String × List String)

/-- One `snax_notify` entry: dedup via `has_dispatched`, then split into
code name and rest and record in the handler map. -/
def notStep (st : NotState) (s : String) : NotState :=
  if s ∈ st.seen then st
  else ⟨s :: st.seen, st.cnt + 1, mapInsert (parseNotify s).1 (parseNotify s).2 st.handlers⟩

/-- The nested registration loop over files and their snax_notify lists. -/
def notLoop (files : List SnaxFile) : NotState :=
  files.foldl (fun st f => f.snaxNotify.foldl notStep st) ⟨[], 0, []⟩

/-- The onerror probe of create_notify_dispatch: scans the handler map for
key "snax" holding an entry equal to the bare string "onerror" (note the
comparison is against the full rest `"actname:funcname"`, not the action
name before the colon). -/
def hasOnerrorHandler (cnt : Nat) (handlers : List (String × List String)) : Bool :=
  if cnt > 0 then
    handlers.any (fun p => p.1 == "snax" && p.2.any (fun v => v == "onerror"))
  else false

/-- The synthesized `snax_assert_code(false, SNAX_ERROR_ONERROR)` guarded by
`code == name("snax")` and `action == name("onerror")`. -/
def onerrorAssertBytes (assertIdx : Nat) : List Nat :=
  [OPCODE_I64_CONST] ++ sleb128 (toInt64 (string_to_name "snax")) ++
  [OPCODE_GET_LOCAL] ++ uleb128 1 ++
  [OPCODE_I64_EQ, OPCODE_IF, 0x40] ++
  [OPCODE_I64_CONST] ++ sleb128 (toInt64 (string_to_name "onerror")) ++
  [OPCODE_GET_LOCAL] ++ uleb128 2 ++
  [OPCODE_I64_EQ, OPCODE_IF, 0x40] ++
  [OPCODE_I32_CONST] ++ uleb128 0 ++
  [OPCODE_I64_CONST] ++ uleb128 SNAX_ERROR_ONERROR ++
  [OPCODE_CALL] ++ uleb128 assertIdx ++
  [OPCODE_END, OPCODE_END]

/-- Inner create_if cascade over one code name's handler vector, threading
the local need_else flag from false. -/
def innerCascade (findIdx : String → Nat) (vs : List String) : List Nat :=
  (vs.foldl (fun (acc : List Nat × Bool) v => (acc.1 ++ create_if findIdx acc.2 v, true))
    ([], false)).1

/-- The loop over the handler map in its sorted order: the wildcard key is
skipped, every other key opens `if code == name(codename)` preceded by ELSE
from the second group on, holding its inner cascade. -/
def notifyGroups (findIdx : String → Nat) (handlers : List (String × List String)) : List Nat :=
  (handlers.foldl (fun (acc : List Nat × Bool) p =>
    if p.1 == "*" then acc
    else
      (acc.1 ++
       (if acc.2 then [OPCODE_ELSE] else []) ++
       [OPCODE_I64_CONST] ++ sleb128 (toInt64 (string_to_name p.1)) ++
       [OPCODE_GET_LOCAL] ++ uleb128 1 ++
       [OPCODE_I64_EQ, OPCODE_IF, 0x40] ++
       innerCascade findIdx p.2, true)) ([], false)).1

/-- Writer::createDispatchFunction, create_notify_dispatch lambda. -/
def create_notify_dispatch (env : DispatchEnv) : List Nat :=
  let st := notLoop env.files
  [OPCODE_GET_LOCAL] ++ uleb128 0 ++
  [OPCODE_I64_CONST] ++ sleb128 (toInt64 (string_to_name "snax")) ++
  [OPCODE_I64_NE, OPCODE_IF, 0x40] ++
  (if hasOnerrorHandler st.cnt st.handlers then [] else onerrorAssertBytes env.assertIdx) ++
  (if st.cnt > 0 then notifyGroups env.findIdx st.handlers ++ [OPCODE_END, OPCODE_ELSE] else []) ++
  (if (mapGet st.handlers "*").isEmpty then [] else innerCascade env.findIdx (mapGet st.handlers "*")) ++
  (match env.postIdx with
   | some p =>
     [OPCODE_ELSE, OPCODE_GET_LOCAL] ++ uleb128 0 ++
     [OPCODE_GET_LOCAL] ++ uleb128 1 ++
     [OPCODE_GET_LOCAL] ++ uleb128 2 ++
     [OPCODE_CALL] ++ uleb128 p
   | none => []) ++
  List.replicate st.cnt OPCODE_END

/-- The BodyContent string of createDispatchFunction: local count, optional
ctors call, optional pre_dispatch gate, the receiver == code split into the
action and notify dispatches, the optional `__cxa_finalize` call, and the
closing ENDs. -/
def dispatchBodyContent (env : DispatchEnv) : List Nat :=
  uleb128 0 ++
  (match env.ctorsIdx with
   | some i => if i ≠ 0 then [OPCODE_CALL] ++ uleb128 i else []
   | none => []) ++
  (match env.preIdx with
   | some p =>
     [OPCODE_GET_LOCAL] ++ uleb128 0 ++
     [OPCODE_GET_LOCAL] ++ uleb128 1 ++
     [OPCODE_GET_LOCAL] ++ uleb128 2 ++
     [OPCODE_CALL] ++ uleb128 p ++
     [OPCODE_IF, 0x40]
   | none => []) ++
  [OPCODE_GET_LOCAL] ++ uleb128 0 ++
  [OPCODE_GET_LOCAL] ++ uleb128 1 ++
  [OPCODE_I64_EQ, OPCODE_IF, 0x40] ++
  create_action_dispatch env ++
  [OPCODE_ELSE] ++
  create_notify_dispatch env ++
  [OPCODE_END] ++
  (match env.dtorsIdx with
   | some d =>
     if d ≠ 0 then [OPCODE_I32_CONST] ++ uleb128 0 ++ [OPCODE_CALL] ++ uleb128 d else []
   | none => []) ++
  (if env.preIdx.isSome then [OPCODE_END] else []) ++
  [OPCODE_END]

/-- The final FunctionBody: the body length as ULEB followed by the body. -/
def createDispatchFunction (env : DispatchEnv) : List Nat :=
  uleb128 (dispatchBodyContent env).length ++ dispatchBodyContent env

/-- Contiguous-subsequence test on byte lists. -/
def hasSeg (pat : List Nat) : List Nat → Bool
  | [] => pat.isEmpty
  | x :: t => pat.isPrefixOf (x :: t) || hasSeg pat t

/-- The concatenation of all files' snax_actions in file order, matching the
nested loops of create_action_dispatch. -/
def flatActions : List SnaxFile → List String
  | [] => []
  | f :: r => f.snaxActions ++ flatActions r

/-- The concatenation of all files' snax_notify in file order. -/
def flatNotify : List SnaxFile → List String
  | [] => []
  | f :: r => f.snaxNotify ++ flatNotify r

/-- First-occurrence subsequence relative to an already-seen set: the order
the `has_dispatched.insert(x).second` guard lets entries through. -/
def dedupFirstAux (seen : List String) : List String → List String
  | [] => []
  | a :: l => if a ∈ seen then dedupFirstAux seen l else a :: dedupFirstAux (a :: seen) l

/-- First-occurrence deduplication of a string sequence. -/
def dedupFirst (l : List String) : List String :=
  dedupFirstAux [] l

/-- The action step without the seen-set guard. -/
def actStepRaw (findIdx : String → Nat) (st : ActState) (a : String) : ActState :=
  ⟨st.bytes ++ create_if findIdx st.needElse a, a :: st.seen, st.cnt + 1, true⟩

/-- The notify registration step without the seen-set guard. -/
def notStepRaw (st : NotState) (s : String) : NotState :=
  ⟨s :: st.seen, st.cnt + 1, mapInsert (parseNotify s).1 (parseNotify s).2 st.handlers⟩

theorem foldl_actStep_dedup (findIdx : String → Nat) (l : List String) (st : ActState) :
    l.foldl (actStep findIdx) st = (dedupFirstAux st.seen l).foldl (actStepRaw findIdx) st := by
  induction l generalizing st with
  | nil => rfl
  | cons a l ih =>
    by_cases h : a ∈ st.seen
    · simp only [List.foldl_cons, actStep, if_pos h, dedupFirstAux, ih]
    · simp only [List.foldl_cons, actStep, if_neg h, dedupFirstAux]
      exact ih ⟨st.bytes ++ create_if findIdx st.needElse a, a :: st.seen, st.cnt + 1, true⟩

theorem actLoop_eq_dedup (findIdx : String → Nat) (files : List SnaxFile) :
    actLoop findIdx files =
      (dedupFirst (flatActions files)).foldl (actStepRaw findIdx) ⟨[], [], 0, false⟩ := by
  have hflat : ∀ (fs : List SnaxFile) (st : ActState),
      fs.foldl (fun st f => f.snaxActions.foldl (actStep findIdx) st) st =
        (flatActions fs).foldl (actStep findIdx) st := by
    intro fs
    induction fs with
    | nil => intro st; rfl
    | cons f r ih =>
      intro st
      simp only [List.foldl_cons, flatActions, List.foldl_append, ih]
  unfold actLoop dedupFirst
  rw [hflat, foldl_actStep_dedup]

theorem foldl_notStep_dedup (l : List String) (st : NotState) :
    l.foldl notStep st = (dedupFirstAux st.seen l).foldl notStepRaw st := by
  induction l generalizing st with
  | nil => rfl
  | cons a l ih =>
    by_cases h : a ∈ st.seen
    · simp only [List.foldl_cons, notStep, if_pos h, dedupFirstAux, ih]
    · simp only [List.foldl_cons, notStep, if_neg h, dedupFirstAux]
      exact ih ⟨a :: st.seen, st.cnt + 1, mapInsert (parseNotify a).1 (parseNotify a).2 st.handlers⟩

theorem notLoop_eq_dedup (files : List SnaxFile) :
    notLoop files = (dedupFirst (flatNotify files)).foldl notStepRaw ⟨[], 0, []⟩ := by
  have hflat : ∀ (fs : List SnaxFile) (st : NotState),
      fs.foldl (fun st f => f.snaxNotify.foldl notStep st) st =
        (flatNotify fs).foldl notStep st := by
    intro fs
    induction fs with
    | nil => intro st; rfl
    | cons f r ih =>
      intro st
      simp only [List.foldl_cons, flatNotify, List.foldl_append, ih]
  unfold notLoop dedupFirst
  rw [hflat, foldl_notStep_dedup]

/-- Claim C10: in the create_if helper the internal-error branch is
unreachable: whatever unsigned 32-bit value the unchecked
`Symtab->find(...)->getFunctionIndex()` lookup yields (the quantified
`findIdx`, covering names absent from the symbol table as well), the guard
`index >= 0` holds and the `std::runtime_error` is never thrown. -/
theorem create_if_no_internal_error (findIdx : String → Nat) (needElse : Bool) (str : String)
    (h : findIdx (String.mk (dropThroughColon str.data)) < 2 ^ 32) :
    create_if_checked findIdx needElse str = Except.ok (create_if findIdx needElse str) := by
  simp [create_if_checked, create_if]

/-- Witness for create_if_no_internal_error at a concrete lookup. -/
theorem create_if_no_internal_error_witness :
    create_if_checked (fun _ => 7) false "onerror:handle_err" =
      Except.ok (create_if (fun _ => 7) false "onerror:handle_err") :=
  create_if_no_internal_error (fun _ => 7) false "onerror:handle_err" (by decide)

/-- Lookup environment shared by the concrete dispatcher evaluations. -/
def findCx : String → Nat :=
  fun s =>
    if s == "handle_err" then 7
    else if s == "on_transfer" then 5
    else if s == "on_issue" then 6
    else 0

def envOnerror : DispatchEnv :=
  ⟨[⟨[], ["snax::onerror:handle_err"]⟩], findCx, 3, none, none, none, none⟩

/-- Claim C1 (code bug): with the notify entry "snax::onerror:handle_err"
registered, the onerror probe still fails (it compares the full rest
"onerror:handle_err" with "onerror"), so the synthesized body contains the
SNAX_ERROR_ONERROR assertion constant in addition to the guarded call of
the registered handler (function index 7). -/
theorem notify_onerror_assert_emitted_despite_handler :
    hasOnerrorHandler (notLoop envOnerror.files).cnt (notLoop envOnerror.files).handlers = false
    ∧ hasSeg ([OPCODE_I64_CONST] ++ uleb128 SNAX_ERROR_ONERROR)
        (create_notify_dispatch envOnerror) = true
    ∧ hasSeg ([OPCODE_CALL] ++ uleb128 7) (create_notify_dispatch envOnerror) = true := by
  refine ⟨by decide, by decide, by decide⟩

def envActsA : DispatchEnv :=
  ⟨[⟨["transfer:on_transfer", "issue:on_issue"], []⟩], findCx, 3, none, none, none, none⟩

def envActsB : DispatchEnv :=
  ⟨[⟨["issue:on_issue", "transfer:on_transfer"], []⟩], findCx, 3, none, none, none, none⟩

/-- Claim C9 (counterexample): two symbol tables contributing the same set
of snax_actions strings (a permutation; the notify lists are equal) and
identical lookups produce different apply body bytes, so the advertised
iteration-order insensitivity fails. -/
theorem dispatch_order_changes_bytes :
    (flatActions envActsA.files).Perm (flatActions envActsB.files)
    ∧ flatNotify envActsA.files = flatNotify envActsB.files
    ∧ createDispatchFunction envActsA ≠ createDispatchFunction envActsB := by
  refine ⟨by decide, by decide, by decide⟩

/-- Claim C9 (amended): the dispatcher is a function of the first-occurrence
deduplicated action and notify sequences: two environments with identical
lookups and identical deduplicated sequences (however the entries are
distributed over object files, duplicates included) emit bit-identical
apply body bytes.  Bit-identity under arbitrary permutation of the sets
does not hold (see dispatch_order_changes_bytes). -/
theorem dispatch_deterministic_of_dedup (e1 e2 : DispatchEnv)
    (hf : e1.findIdx = e2.findIdx) (ha : e1.assertIdx = e2.assertIdx)
    (hp : e1.postIdx = e2.postIdx) (hq : e1.preIdx = e2.preIdx)
    (hc : e1.ctorsIdx = e2.ctorsIdx) (hd : e1.dtorsIdx = e2.dtorsIdx)
    (hact : dedupFirst (flatActions e1.files) = dedupFirst (flatActions e2.files))
    (hnot : dedupFirst (flatNotify e1.files) = dedupFirst (flatNotify e2.files)) :
    createDispatchFunction e1 = createDispatchFunction e2 := by
  have hA : actLoop e1.findIdx e1.files = actLoop e2.findIdx e2.files := by
    rw [actLoop_eq_dedup, actLoop_eq_dedup, hf, hact]
  have hN : notLoop e1.files = notLoop e2.files := by
    rw [notLoop_eq_dedup, notLoop_eq_dedup, hnot]
  unfold createDispatchFunction dispatchBodyContent create_action_dispatch create_notify_dispatch
  rw [hA, hN, hf, ha, hp, hq, hc, hd]

def envActsD : DispatchEnv :=
  ⟨[⟨["transfer:on_transfer"], []⟩, ⟨["issue:on_issue", "transfer:on_transfer"], []⟩],
    findCx, 3, none, none, none, none⟩

/-- Witness for dispatch_deterministic_of_dedup: one file holding both
actions against two files with a duplicated entry. -/
theorem dispatch_deterministic_of_dedup_witness :
    createDispatchFunction envActsA = createDispatchFunction envActsD :=
  dispatch_deterministic_of_dedup envActsA envActsD rfl rfl rfl rfl rfl rfl
    (by decide) (by decide)

/-! Writer::calculateImports.  Symbols carry the flags the five continue
guards read; the kind separates FunctionSymbol, GlobalSymbol and DataSymbol
(SectionSymbols are always defined, so they never reach the kind split). -/

inductive ImpKind
  | funcK
  | globalK
  | dataK
deriving DecidableEq

structure ImpSym where
  isUndefined : Bool
  isWeak : Bool
  isLive : Bool
  usedInRegularObj : Bool
  kind : ImpKind
deriving DecidableEq

/-- The five continue guards of calculateImports: a symbol is imported iff
it is undefined, not a data symbol, not (weak and non-relocatable), live,
and used in a regular object. -/
def importCond (relocatable : Bool) (s : ImpSym) : Bool :=
  s.isUndefined && !(s.kind == ImpKind.dataK) && !(s.isWeak && !relocatable) &&
    s.isLive && s.usedInRegularObj

def importFuncCond (relocatable : Bool) (s : ImpSym) : Bool :=
  importCond relocatable s && (s.kind == ImpKind.funcK)

def importGlobalCond (relocatable : Bool) (s : ImpSym) : Bool :=
  importCond relocatable s && !(s.kind == ImpKind.funcK)

structure ImportState where
  importedSymbols : List ImpSym
  numImportedFunctions : Nat
  numImportedGlobals : Nat
  funcIndex : List (ImpSym × Nat)
  globalIndex : List (ImpSym × Nat)
deriving DecidableEq

/-- One loop iteration of calculateImports: survivors are appended to
ImportedSymbols and function symbols get `NumImportedFunctions++`, all
others (GlobalSymbol cast) get `NumImportedGlobals++`. -/
def calculateImportsStep (relocatable : Bool) (st : ImportState) (s : ImpSym) : ImportState :=
  if importCond relocatable s then
    if s.kind == ImpKind.funcK then
      ⟨st.importedSymbols ++ [s], st.numImportedFunctions + 1, st.numImportedGlobals,
        st.funcIndex ++ [(s, st.numImportedFunctions)], st.globalIndex⟩
    else
      ⟨st.importedSymbols ++ [s], st.numImportedFunctions, st.numImportedGlobals + 1,
        st.funcIndex, st.globalIndex ++ [(s, st.numImportedGlobals)]⟩
  else st

/-- Writer::calculateImports over the symbol table view. -/
def calculateImports (relocatable : Bool) (syms : List ImpSym) : ImportState :=
  syms.foldl (calculateImportsStep relocatable) ⟨[], 0, 0, [], []⟩

/-- Pair each list element with its position counted from k. -/
def indexFrom (k : Nat) : List ImpSym → List (ImpSym × Nat)
  | [] => []
  | a :: l => (a, k) :: indexFrom (k + 1) l

theorem indexFrom_map_snd (k : Nat) (l : List ImpSym) :
    (indexFrom k l).map Prod.snd = List.range' k l.length := by
  induction l generalizing k with
  | nil => rfl
  | cons a l ih => simp [indexFrom, List.range', ih]

theorem calculateImports_general (relocatable : Bool) :
    ∀ (syms : List ImpSym) (st : ImportState),
      syms.foldl (calculateImportsStep relocatable) st =
        ⟨st.importedSymbols ++ syms.filter (importCond relocatable),
          st.numImportedFunctions + (syms.filter (importFuncCond relocatable)).length,
          st.numImportedGlobals + (syms.filter (importGlobalCond relocatable)).length,
          st.funcIndex ++ indexFrom st.numImportedFunctions (syms.filter (importFuncCond relocatable)),
          st.globalIndex ++ indexFrom st.numImportedGlobals (syms.filter (importGlobalCond relocatable))⟩ := by
  intro syms
  induction syms with
  | nil => intro st; simp [indexFrom]
  | cons s l ih =>
    intro st
    simp only [List.foldl_cons, ih]
    by_cases h : importCond relocatable s = true
    · by_cases hk : (s.kind == ImpKind.funcK) = true
      · have h1 : importFuncCond relocatable s = true := by
          simp [importFuncCond, h, hk]
        have h2 : importGlobalCond relocatable s = false := by
          simp [importGlobalCond, h, hk]
        simp [calculateImportsStep, h, hk, List.filter_cons, h1, h2, indexFrom,
          List.append_assoc]
        omega
      · have h1 : importFuncCond relocatable s = false := by
          simp [importFuncCond, hk]
        have h2 : importGlobalCond relocatable s = true := by
          simp [importGlobalCond, h, hk]
        simp [calculateImportsStep, h, hk, List.filter_cons, h1, h2, indexFrom,
          List.append_assoc]
        omega
    · have h0 : importCond relocatable s = false := by
        simp only [Bool.not_eq_true] at h; exact h
      have h1 : importFuncCond relocatable s = false := by
        simp [importFuncCond, h0]
      have h2 : importGlobalCond relocatable s = false := by
        simp [importGlobalCond, h0]
      simp [calculateImportsStep, h0, List.filter_cons, h1, h2]

/-- Claim C2: calculateImports selects exactly the undefined, live,
used-in-regular-obj, non-data, (non-weak or relocatable) symbols in
symbol-table order, gives function imports the consecutive indices
0, 1, ... in that order, global imports likewise, and imports nothing
else (the ImportedSymbols list is exactly the filtered list). -/
theorem calculateImports_spec (relocatable : Bool) (syms : List ImpSym) :
    (calculateImports relocatable syms).importedSymbols = syms.filter (importCond relocatable)
    ∧ (calculateImports relocatable syms).funcIndex =
        indexFrom 0 (syms.filter (importFuncCond relocatable))
    ∧ (calculateImports relocatable syms).globalIndex =
        indexFrom 0 (syms.filter (importGlobalCond relocatable))
    ∧ (calculateImports relocatable syms).funcIndex.map Prod.snd =
        List.range (syms.filter (importFuncCond relocatable)).length
    ∧ (calculateImports relocatable syms).globalIndex.map Prod.snd =
        List.range (syms.filter (importGlobalCond relocatable)).length
    ∧ (calculateImports relocatable syms).numImportedFunctions =
        (syms.filter (importFuncCond relocatable)).length
    ∧ (calculateImports relocatable syms).numImportedGlobals =
        (syms.filter (importGlobalCond relocatable)).length := by
  have h := calculateImports_general relocatable syms ⟨[], 0, 0, [], []⟩
  unfold calculateImports
  rw [h]
  refine ⟨by simp, by simp, by simp, ?_, ?_, by simp, by simp⟩
  · simp [indexFrom_map_snd, List.range_eq_range']
  · simp [indexFrom_map_snd, List.range_eq_range']

/-! Writer::layoutMemory.  The embedding works on the already-grouped
OutputSegments (createOutputSegments only groups input segments; the claim
exercises a single segment).  MemoryPtr is a uint32 in the source; the
scenario values stay far below 2^32, so plain Nat arithmetic is exact. -/

/-- llvm::alignTo: round up to the next multiple of the (power-of-two)
alignment. -/
def alignTo (v a : Nat) : Nat :=
  if a = 0 then v else (v + a - 1) / a * a

structure OutputSeg where
  alignment : Nat
  size : Nat
deriving DecidableEq

structure LayoutConfig where
  relocatable : Bool
  stackFirst : Bool
  globalBase : Nat
  zStackSize : Nat
  initialMemory : Nat
  maxMemory : Nat
deriving DecidableEq

structure StackPlace where
  ptr : Nat
  sp : Option Nat
  errs : Nat
deriving DecidableEq

/-- The PlaceStack lambda: no-op when relocatable, otherwise align the
pointer to kStackAlignment, flag a non-16-aligned stack size, advance by
ZStackSize and record the resulting pointer as the stack-pointer init. -/
def placeStack (cfg : LayoutConfig) (ptr : Nat) : StackPlace :=
  if cfg.relocatable then ⟨ptr, none, 0⟩
  else
    ⟨alignTo ptr kStackAlignment + cfg.zStackSize,
      some (alignTo ptr kStackAlignment + cfg.zStackSize),
      if cfg.zStackSize ≠ alignTo cfg.zStackSize kStackAlignment then 1 else 0⟩

structure LayoutResult where
  segStartVAs : List Nat
  dataEnd : Nat
  stackPointerInit : Option Nat
  heapBase : Option Nat
  numMemoryPages : Nat
  maxMemoryPages : Nat
  errorCount : Nat
deriving DecidableEq

/-- Writer::layoutMemory: optional stack-first placement or global base,
per-segment alignment and placement, __data_end, the non-stack-first stack,
__heap_base, the initial-memory override, the page count, and the
max-memory pages, counting every error() call. -/
def layoutMemory (cfg : LayoutConfig) (segs : List OutputSeg) : LayoutResult :=
  let s0 : StackPlace :=
    if cfg.stackFirst then placeStack cfg 0 else ⟨cfg.globalBase, none, 0⟩
  let placed : List Nat × Nat :=
    segs.foldl (fun (acc : List Nat × Nat) seg =>
      (acc.1 ++ [alignTo acc.2 seg.alignment], alignTo acc.2 seg.alignment + seg.size))
      ([], s0.ptr)
  let dataEnd := placed.2
  let s2 : StackPlace := if cfg.stackFirst then ⟨dataEnd, s0.sp, 0⟩ else placeStack cfg dataEnd
  let heapBase : Option Nat := if cfg.relocatable then none else some s2.ptr
  let initErrs :=
    (if cfg.initialMemory ≠ 0 ∧ cfg.initialMemory ≠ alignTo cfg.initialMemory WasmPageSize
     then 1 else 0) +
    (if cfg.initialMemory ≠ 0 ∧ s2.ptr > cfg.initialMemory then 1 else 0)
  let ptr3 :=
    if cfg.initialMemory ≠ 0 ∧ ¬ s2.ptr > cfg.initialMemory then cfg.initialMemory else s2.ptr
  let maxErrs :=
    (if cfg.maxMemory ≠ 0 ∧ cfg.maxMemory ≠ alignTo cfg.maxMemory WasmPageSize then 1 else 0) +
    (if cfg.maxMemory ≠ 0 ∧ ptr3 > cfg.maxMemory then 1 else 0)
  ⟨placed.1, dataEnd, s2.sp, heapBase,
    alignTo ptr3 WasmPageSize / WasmPageSize,
    if cfg.maxMemory ≠ 0 then cfg.maxMemory / WasmPageSize else 0,
    s0.errs + s2.errs + initErrs + maxErrs⟩

/-- Claim C3: for a non-relocatable, non-stack-first link with
global_base = 1024, stack size 4096, no initial/max memory overrides and a
single live 100-byte segment of alignment 8, layoutMemory places the
segment at 1024, sets __data_end = 1124, the 16-aligned stack base 1136
gives __stack_pointer = 5232 = __heap_base, one 64 KiB page suffices, and
no error is reported. -/
theorem layoutMemory_scenario :
    layoutMemory ⟨false, false, 1024, 4096, 0, 0⟩ [⟨8, 100⟩] =
      ⟨[1024], 1124, some 5232, some 5232, 1, 0, 0⟩ := by
  decide


/-! Writer::assignIndexes, the HandleRelocs walk that assigns table indices
to TABLE_INDEX relocation targets, and Writer::createElemSection.  Function
symbols are identified by a numeric id; `funcIdx` gives the function index
a symbol received from calculateImports / AddDefinedFunction, none when it
never got one (e.g. an undefined weak function in a non-relocatable link).
The TYPE_INDEX branch only touches the type table (modelled separately) and
leaves the table state unchanged. -/

inductive RelocType
  | tableI32
  | tableSLEB
  | typeLEB
  | other
deriving DecidableEq

structure WasmReloc where
  rtype : RelocType
  symId : Nat
deriving DecidableEq

structure RChunk where
  live : Bool
  relocs : List WasmReloc
deriving DecidableEq

/-- First-match association lookup, the symbol's hasTableIndex state. -/
def assocFind : List (Nat × Nat) → Nat → Option Nat
  | [], _ => none
  | p :: l, k => if p.1 = k then some p.2 else assocFind l k

structure TableState where
  nextTable : Nat
  assign : List (Nat × Nat)
  indirect : List Nat
deriving DecidableEq

def isTableReloc (r : WasmReloc) : Bool :=
  r.rtype == RelocType.tableI32 || r.rtype == RelocType.tableSLEB

/-- HandleRelocs body for one relocation: a TABLE_INDEX relocation assigns
`TableIndex++` to the target and appends it to IndirectFunctions, unless
the target already has a table index or has no function index. -/
def handleReloc (funcIdx : Nat → Option Nat) (st : TableState) (r : WasmReloc) : TableState :=
  if isTableReloc r then
    if (assocFind st.assign r.symId).isSome || (funcIdx r.symId).isNone then st
    else ⟨st.nextTable + 1, st.assign ++ [(r.symId, st.nextTable)], st.indirect ++ [r.symId]⟩
  else st

/-- HandleRelocs skips chunks that are not live. -/
def handleRelocsChunk (funcIdx : Nat → Option Nat) (st : TableState) (c : RChunk) : TableState :=
  if c.live then c.relocs.foldl (handleReloc funcIdx) st else st

/-- The relocation walk of Writer::assignIndexes over every chunk of every
object file (functions, segments, custom sections flattened into one list),
starting at TableIndex = kInitialTableOffset. -/
def assignTableIndexes (funcIdx : Nat → Option Nat) (chunks : List RChunk) : TableState :=
  chunks.foldl (handleRelocsChunk funcIdx) ⟨kInitialTableOffset, [], []⟩

/-- Pair list elements with consecutive indices counted from k. -/
def natIndexFrom (k : Nat) : List Nat → List (Nat × Nat)
  | [] => []
  | s :: l => (s, k) :: natIndexFrom (k + 1) l

/-- Writer::createElemSection: nothing when there are no indirect
functions, otherwise one segment at table offset kInitialTableOffset (the
init expression is modelled from the spec's write_init_expr: opcode byte,
SLEB value, END; WriterUtils.cpp is not under src/), the element count and
each indirect function's function index in vector order. -/
def createElemSection (funcIdx : Nat → Option Nat) (indirect : List Nat) : List Nat :=
  if indirect.isEmpty then []
  else
    uleb128 1 ++ uleb128 0 ++ [OPCODE_I32_CONST] ++ sleb128 (kInitialTableOffset : Int) ++
    [OPCODE_END] ++ uleb128 indirect.length ++
    indirect.foldl (fun acc s => acc ++ uleb128 ((funcIdx s).getD 0)) []

theorem natIndexFrom_append (k : Nat) (l : List Nat) (s : Nat) :
    natIndexFrom k (l ++ [s]) = natIndexFrom k l ++ [(s, k + l.length)] := by
  induction l generalizing k with
  | nil => rfl
  | cons a l ih =>
    simp only [List.cons_append, natIndexFrom, List.length_cons, List.append_eq]
    rw [ih (k + 1)]
    have harith : k + 1 + l.length = k + (l.length + 1) := by omega
    rw [harith]

theorem assocFind_isSome_natIndexFrom (k : Nat) (l : List Nat) (s : Nat) :
    (assocFind (natIndexFrom k l) s).isSome = true ↔ s ∈ l := by
  induction l generalizing k with
  | nil => simp [natIndexFrom, assocFind]
  | cons a l ih =>
    simp only [natIndexFrom, assocFind, List.mem_cons]
    by_cases h : a = s
    · simp [h]
    · simp only [if_neg h, ih]
      constructor
      · intro hm; exact Or.inr hm
      · intro hm
        rcases hm with hm | hm
        · exact absurd hm.symm h
        · exact hm

theorem assocFind_append_some (l1 l2 : List (Nat × Nat)) (k v : Nat) :
    assocFind l1 k = some v → assocFind (l1 ++ l2) k = some v := by
  induction l1 with
  | nil => intro h; cases h
  | cons p l ih =>
    intro h
    simp only [assocFind, List.cons_append] at *
    by_cases hp : p.1 = k
    · simpa [hp] using h
    · rw [if_neg hp] at h ⊢
      exact ih h

theorem assocFind_append_none (l1 l2 : List (Nat × Nat)) (k : Nat) :
    assocFind l1 k = none → assocFind (l1 ++ l2) k = assocFind l2 k := by
  induction l1 with
  | nil => intro _; rfl
  | cons p l ih =>
    intro h
    simp only [assocFind, List.cons_append] at *
    by_cases hp : p.1 = k
    · rw [if_pos hp] at h; cases h
    · rw [if_neg hp] at h ⊢
      exact ih h

/-- Shape invariant of the table walk: assignments are exactly the indirect
vector paired with consecutive indices from kInitialTableOffset, the
counter sits one past the last index, and no symbol repeats. -/
def TInv (st : TableState) : Prop :=
  st.nextTable = kInitialTableOffset + st.indirect.length
  ∧ st.assign = natIndexFrom kInitialTableOffset st.indirect
  ∧ st.indirect.Nodup

theorem TInv_handleReloc (funcIdx : Nat → Option Nat) (st : TableState) (r : WasmReloc) :
    TInv st → TInv (handleReloc funcIdx st r) := by
  intro hinv
  obtain ⟨h1, h2, h3⟩ := hinv
  unfold handleReloc
  by_cases ht : isTableReloc r = true
  · rw [if_pos ht]
    by_cases hskip : ((assocFind st.assign r.symId).isSome || (funcIdx r.symId).isNone) = true
    · rw [if_pos hskip]; exact ⟨h1, h2, h3⟩
    · rw [if_neg hskip]
      have hnone : (assocFind st.assign r.symId).isSome = false := by
        rcases Bool.or_eq_false_iff.mp (Bool.eq_false_iff.mpr hskip) with ⟨ha, _⟩
        exact ha
      have hnotmem : r.symId ∉ st.indirect := by
        intro hmem
        rw [h2] at hnone
        rw [(assocFind_isSome_natIndexFrom kInitialTableOffset st.indirect r.symId).mpr hmem] at hnone
        cases hnone
      refine ⟨?_, ?_, ?_⟩
      · simp only [List.length_append, List.length_singleton]
        omega
      · simp only [natIndexFrom_append, h2, h1]
      · simp [List.nodup_append, h3, hnotmem]
  · rw [if_neg ht]; exact ⟨h1, h2, h3⟩

theorem TInv_foldl_relocs (funcIdx : Nat → Option Nat) (l : List WasmReloc) (st : TableState) :
    TInv st → TInv (l.foldl (handleReloc funcIdx) st) := by
  induction l generalizing st with
  | nil => intro h; exact h
  | cons r l ih =>
    intro h
    exact ih _ (TInv_handleReloc funcIdx st r h)

theorem TInv_chunks (funcIdx : Nat → Option Nat) (chunks : List RChunk) (st : TableState) :
    TInv st → TInv (chunks.foldl (handleRelocsChunk funcIdx) st) := by
  induction chunks generalizing st with
  | nil => intro h; exact h
  | cons c l ih =>
    intro h
    apply ih
    unfold handleRelocsChunk
    by_cases hc : c.live = true
    · rw [if_pos hc]; exact TInv_foldl_relocs funcIdx c.relocs st h
    · rw [if_neg hc]; exact h

theorem handleReloc_mono (funcIdx : Nat → Option Nat) (st : TableState) (r : WasmReloc) (k : Nat) :
    (assocFind st.assign k).isSome = true →
    (assocFind (handleReloc funcIdx st r).assign k).isSome = true := by
  intro h
  unfold handleReloc
  obtain ⟨v, hv⟩ := Option.isSome_iff_exists.mp h
  split
  · split
    · exact h
    · simp only []
      rw [assocFind_append_some st.assign _ k v hv]
      rfl
  · exact h

theorem foldl_relocs_mono (funcIdx : Nat → Option Nat) (l : List WasmReloc) (st : TableState) (k : Nat) :
    (assocFind st.assign k).isSome = true →
    (assocFind (l.foldl (handleReloc funcIdx) st).assign k).isSome = true := by
  induction l generalizing st with
  | nil => intro h; exact h
  | cons r l ih =>
    intro h
    exact ih _ (handleReloc_mono funcIdx st r k h)

theorem chunks_mono (funcIdx : Nat → Option Nat) (chunks : List RChunk) (st : TableState) (k : Nat) :
    (assocFind st.assign k).isSome = true →
    (assocFind (chunks.foldl (handleRelocsChunk funcIdx) st).assign k).isSome = true := by
  induction chunks generalizing st with
  | nil => intro h; exact h
  | cons c l ih =>
    intro h
    simp only [List.foldl_cons]
    apply ih
    unfold handleRelocsChunk
    split
    · exact foldl_relocs_mono funcIdx c.relocs st k h
    · exact h

theorem handleReloc_establishes (funcIdx : Nat → Option Nat) (st : TableState) (r : WasmReloc) :
    isTableReloc r = true → (funcIdx r.symId).isSome = true →
    (assocFind (handleReloc funcIdx st r).assign r.symId).isSome = true := by
  intro ht hf
  unfold handleReloc
  rw [if_pos ht]
  by_cases hskip : ((assocFind st.assign r.symId).isSome || (funcIdx r.symId).isNone) = true
  · rw [if_pos hskip]
    rcases Bool.or_eq_true_iff.mp hskip with h | h
    · exact h
    · rw [Option.isNone_iff_eq_none.mp h] at hf
      cases hf
  · rw [if_neg hskip]
    have hnone : assocFind st.assign r.symId = none := by
      rcases Bool.or_eq_false_iff.mp (Bool.eq_false_iff.mpr hskip) with ⟨ha, _⟩
      exact Option.not_isSome_iff_eq_none.mp (by simp [ha])
    simp only []
    rw [assocFind_append_none st.assign _ r.symId hnone]
    simp [assocFind]

theorem foldl_relocs_covers (funcIdx : Nat → Option Nat) (l : List WasmReloc) (st : TableState)
    (r : WasmReloc) :
    r ∈ l → isTableReloc r = true → (funcIdx r.symId).isSome = true →
    (assocFind (l.foldl (handleReloc funcIdx) st).assign r.symId).isSome = true := by
  induction l generalizing st with
  | nil => intro h; cases h
  | cons a l ih =>
    intro hm ht hf
    rcases List.mem_cons.mp hm with hm | hm
    · subst hm
      exact foldl_relocs_mono funcIdx l _ r.symId (handleReloc_establishes funcIdx st r ht hf)
    · exact ih _ hm ht hf

theorem chunks_cover (funcIdx : Nat → Option Nat) (chunks : List RChunk) (st : TableState)
    (c : RChunk) (r : WasmReloc) :
    c ∈ chunks → c.live = true → r ∈ c.relocs → isTableReloc r = true →
    (funcIdx r.symId).isSome = true →
    (assocFind (chunks.foldl (handleRelocsChunk funcIdx) st).assign r.symId).isSome = true := by
  induction chunks generalizing st with
  | nil => intro h; cases h
  | cons a l ih =>
    intro hm hlive hr ht hf
    simp only [List.foldl_cons]
    rcases List.mem_cons.mp hm with hm | hm
    · subst hm
      apply chunks_mono
      unfold handleRelocsChunk
      rw [if_pos hlive]
      exact foldl_relocs_covers funcIdx c.relocs st r hr ht hf
    · exact ih _ hm hlive hr ht hf

theorem foldl_uleb_join (funcIdx : Nat → Option Nat) (l : List Nat) (acc : List Nat) :
    l.foldl (fun a s => a ++ uleb128 ((funcIdx s).getD 0)) acc =
      acc ++ (l.map (fun s => uleb128 ((funcIdx s).getD 0))).flatten := by
  induction l generalizing acc with
  | nil => simp
  | cons a l ih => simp [ih, List.append_assoc]

/-- Claim C4 (amended): every TABLE_INDEX relocation target of a live chunk
that has a function index receives a table index; the assignments pair the
IndirectFunctions vector with the unique consecutive indices
kInitialTableOffset, kInitialTableOffset+1, ...; and when any indirect
function exists the elem section is one segment at offset 1 listing the
function indices in table-index order.  (Targets without a function index
are skipped by the `!Sym->hasFunctionIndex()` guard, the correction to the
claim.) -/
theorem assignIndexes_table_spec (funcIdx : Nat → Option Nat) (chunks : List RChunk) :
    (∀ c, c ∈ chunks → c.live = true → ∀ r, r ∈ c.relocs → isTableReloc r = true →
      (funcIdx r.symId).isSome = true →
      (assocFind (assignTableIndexes funcIdx chunks).assign r.symId).isSome = true)
    ∧ (assignTableIndexes funcIdx chunks).assign =
        natIndexFrom kInitialTableOffset (assignTableIndexes funcIdx chunks).indirect
    ∧ (assignTableIndexes funcIdx chunks).indirect.Nodup
    ∧ (assignTableIndexes funcIdx chunks).nextTable =
        kInitialTableOffset + (assignTableIndexes funcIdx chunks).indirect.length
    ∧ ((assignTableIndexes funcIdx chunks).indirect.isEmpty = false →
        createElemSection funcIdx (assignTableIndexes funcIdx chunks).indirect =
          uleb128 1 ++ uleb128 0 ++ [OPCODE_I32_CONST] ++ sleb128 (kInitialTableOffset : Int) ++
          [OPCODE_END] ++ uleb128 (assignTableIndexes funcIdx chunks).indirect.length ++
          ((assignTableIndexes funcIdx chunks).indirect.map
            (fun s => uleb128 ((funcIdx s).getD 0))).flatten) := by
  have hinv : TInv (assignTableIndexes funcIdx chunks) := by
    apply TInv_chunks
    exact ⟨rfl, rfl, List.nodup_nil⟩
  refine ⟨?_, hinv.2.1, hinv.2.2, hinv.1, ?_⟩
  · intro c hc hlive r hr ht hf
    exact chunks_cover funcIdx chunks _ c r hc hlive hr ht hf
  · intro hne
    unfold createElemSection
    rw [if_neg (by simp [hne])]
    rw [foldl_uleb_join]
    simp

/-- Claim C4 (counterexample): a live chunk with a TABLE_INDEX_I32
relocation whose target function symbol has no function index: the walk
assigns it no table index and registers no indirect function, refuting the
unconditional reading of the claim. -/
theorem assignIndexes_table_unindexed_target_skipped :
    assocFind (assignTableIndexes (fun _ => none)
      [⟨true, [⟨RelocType.tableI32, 0⟩]⟩]).assign 0 = none
    ∧ (assignTableIndexes (fun _ => none) [⟨true, [⟨RelocType.tableI32, 0⟩]⟩]).indirect = [] := by
  refine ⟨by decide, by decide⟩

def exFuncIdx : Nat → Option Nat := fun s => some (s + 10)

def exChunk : RChunk := ⟨true, [⟨RelocType.tableSLEB, 5⟩, ⟨RelocType.tableI32, 7⟩,
  ⟨RelocType.tableSLEB, 5⟩]⟩

/-- Witness for assignIndexes_table_spec: both distinct targets of the
concrete chunk end up assigned. -/
theorem assignIndexes_table_spec_witness :
    (assocFind (assignTableIndexes exFuncIdx [exChunk]).assign 5).isSome = true
    ∧ (assocFind (assignTableIndexes exFuncIdx [exChunk]).assign 7).isSome = true :=
  ⟨(assignIndexes_table_spec exFuncIdx [exChunk]).1 exChunk (by decide) rfl
      ⟨RelocType.tableSLEB, 5⟩ (by decide) (by decide) rfl,
    (assignIndexes_table_spec exFuncIdx [exChunk]).1 exChunk (by decide) rfl
      ⟨RelocType.tableI32, 7⟩ (by decide) (by decide) rfl⟩


/-! Writer::registerType / Writer::lookupType.  The DenseMap from signature
to index is an association list looked up by value; Types is the vector of
registered signatures.  Value types are byte codes. -/

structure WasmSignature where
  params : List Nat
  ret : Nat
deriving DecidableEq

def WASM_TYPE_NORESULT : Nat := 0x40

/-- The `WasmSignature{{}, WASM_TYPE_NORESULT}` of calculateInitFunctions:
no parameters, no result. -/
def unitSig : WasmSignature :=
  ⟨[], WASM_TYPE_NORESULT⟩

structure TypeTableState where
  types : List WasmSignature
  typeIndices : List (WasmSignature × Nat)
deriving DecidableEq

/-- First-match association lookup in TypeIndices. -/
def sigFind : List (WasmSignature × Nat) → WasmSignature → Option Nat
  | [], _ => none
  | p :: l, s => if p.1 = s then some p.2 else sigFind l s

/-- Element at an index, `Types[i]`. -/
def sigAt : List WasmSignature → Nat → Option WasmSignature
  | [], _ => none
  | s :: _, 0 => some s
  | _ :: l, n + 1 => sigAt l n

/-- Writer::registerType: `TypeIndices.insert({Sig, Types.size()})`; a fresh
key appends the signature to Types, an existing key returns its index and
changes nothing. -/
def registerType (st : TypeTableState) (s : WasmSignature) : Nat × TypeTableState :=
  match sigFind st.typeIndices s with
  | some i => (i, st)
  | none => (st.types.length, ⟨st.types ++ [s], st.typeIndices ++ [(s, st.types.length)]⟩)

/-- The lld ErrorHandler split: `error()` accumulates and continues,
`fatal()` terminates the link. -/
inductive LinkDiag
  | recoverable (msg : String)
  | fatalErr (msg : String)
deriving DecidableEq

/-- Writer::lookupType: a missing signature goes through the recoverable
`error()` sink (the rendering of the signature in the message is omitted)
and index 0 is returned as substitute; a present signature returns its
index silently. -/
def lookupType (st : TypeTableState) (s : WasmSignature) : Nat × List LinkDiag :=
  match sigFind st.typeIndices s with
  | some i => (i, [])
  | none => (0, [LinkDiag.recoverable ("type not found: ")])

theorem sigFind_append_some (l1 l2 : List (WasmSignature × Nat)) (s : WasmSignature) (v : Nat) :
    sigFind l1 s = some v → sigFind (l1 ++ l2) s = some v := by
  induction l1 with
  | nil => intro h; cases h
  | cons p l ih =>
    intro h
    simp only [sigFind, List.cons_append] at *
    by_cases hp : p.1 = s
    · simpa [hp] using h
    · rw [if_neg hp] at h ⊢
      exact ih h

theorem sigFind_append_none (l1 l2 : List (WasmSignature × Nat)) (s : WasmSignature) :
    sigFind l1 s = none → sigFind (l1 ++ l2) s = sigFind l2 s := by
  induction l1 with
  | nil => intro _; rfl
  | cons p l ih =>
    intro h
    simp only [sigFind, List.cons_append] at *
    by_cases hp : p.1 = s
    · rw [if_pos hp] at h; cases h
    · rw [if_neg hp] at h ⊢
      exact ih h

theorem sigAt_some_lt (l : List WasmSignature) (i : Nat) (s : WasmSignature) :
    sigAt l i = some s → i < l.length := by
  induction l generalizing i with
  | nil => intro h; cases h
  | cons a l ih =>
    intro h
    cases i with
    | zero => simp
    | succ n =>
      simp only [sigAt] at h
      have := ih n h
      simp only [List.length_cons]
      omega

theorem sigAt_append_lt (l1 l2 : List WasmSignature) (i : Nat) :
    i < l1.length → sigAt (l1 ++ l2) i = sigAt l1 i := by
  induction l1 generalizing i with
  | nil => intro h; cases h
  | cons a l ih =>
    intro h
    cases i with
    | zero => rfl
    | succ n =>
      simp only [List.cons_append, sigAt]
      exact ih n (by simpa using Nat.lt_of_succ_lt_succ (by simpa using h))

theorem sigAt_concat_len (l : List WasmSignature) (s : WasmSignature) :
    sigAt (l ++ [s]) l.length = some s := by
  induction l with
  | nil => rfl
  | cons a l ih => simpa [sigAt] using ih

theorem sigAt_get (l : List WasmSignature) (i : Nat) (h : i < l.length) :
    sigAt l i = some (l.get ⟨i, h⟩) := by
  induction l generalizing i with
  | nil => cases h
  | cons a l ih =>
    cases i with
    | zero => rfl
    | succ n => exact ih n (by simpa using Nat.lt_of_succ_lt_succ (by simpa using h))

/-- Well-formedness of the type table: TypeIndices and Types are mutually
inverse views of the same registration history. -/
def TTWF (st : TypeTableState) : Prop :=
  (∀ t i, sigFind st.typeIndices t = some i → sigAt st.types i = some t)
  ∧ (∀ i t, sigAt st.types i = some t → sigFind st.typeIndices t = some i)

theorem TTWF_empty : TTWF ⟨[], []⟩ := by
  constructor
  · intro t i h; cases h
  · intro i t h; cases h

theorem TTWF_registerType (st : TypeTableState) (s : WasmSignature) :
    TTWF st → TTWF (registerType st s).2 := by
  intro hwf
  obtain ⟨hA, hB⟩ := hwf
  unfold registerType
  cases hfind : sigFind st.typeIndices s with
  | some i => exact ⟨hA, hB⟩
  | none =>
    constructor
    · intro t i h
      simp only [] at h
      by_cases ht : sigFind st.typeIndices t = none
      · rw [sigFind_append_none st.typeIndices _ t ht] at h
        simp only [sigFind] at h
        by_cases hts : s = t
        · rw [if_pos hts] at h
          cases h
          rw [← hts]
          exact sigAt_concat_len st.types s
        · rw [if_neg hts] at h
          cases h
      · obtain ⟨j, hj⟩ := Option.ne_none_iff_exists'.mp ht
        rw [sigFind_append_some st.typeIndices _ t j hj] at h
        have hji : j = i := Option.some.inj h
        subst hji
        have hlt := sigAt_some_lt st.types j t (hA t j hj)
        rw [sigAt_append_lt st.types [s] j hlt]
        exact hA t j hj
    · intro i t h
      simp only [] at h
      have hlt := sigAt_some_lt _ i t h
      simp only [List.length_append, List.length_singleton] at hlt
      by_cases hin : i < st.types.length
      · rw [sigAt_append_lt st.types [s] i hin] at h
        have := hB i t h
        exact sigFind_append_some st.typeIndices _ t i this
      · have hi : i = st.types.length := by omega
        subst hi
        rw [sigAt_concat_len st.types s] at h
        have hts : s = t := Option.some.inj h
        subst hts
        rw [sigFind_append_none st.typeIndices _ s hfind]
        simp [sigFind]

/-- Claim C5: registerType is idempotent (a second registration of an equal
signature returns the same index and leaves the table untouched), the empty
table is well formed and registration preserves well-formedness, under
well-formedness every TypeIndices entry is a valid index into Types holding
that same signature (so every lookupType answer refers to the looked-up
signature), and Types never holds a signature twice. -/
theorem registerType_spec (st : TypeTableState) (s : WasmSignature) :
    registerType (registerType st s).2 s = ((registerType st s).1, (registerType st s).2)
    ∧ TTWF ⟨[], []⟩
    ∧ (TTWF st → TTWF (registerType st s).2)
    ∧ (TTWF st → ∀ t i, sigFind st.typeIndices t = some i → sigAt st.types i = some t)
    ∧ (TTWF st → ∀ t, (lookupType st t).2 = [] →
        sigAt st.types (lookupType st t).1 = some t)
    ∧ (TTWF st → st.types.Nodup) := by
  refine ⟨?_, TTWF_empty, TTWF_registerType st s, ?_, ?_, ?_⟩
  · unfold registerType
    cases hfind : sigFind st.typeIndices s with
    | some i => simp [hfind]
    | none =>
      simp only []
      have hnew : sigFind (st.typeIndices ++ [(s, st.types.length)]) s = some st.types.length := by
        rw [sigFind_append_none st.typeIndices _ s hfind]
        simp [sigFind]
      simp [hnew]
  · intro hwf t i h
    exact hwf.1 t i h
  · intro hwf t hempty
    unfold lookupType at *
    cases hfind : sigFind st.typeIndices t with
    | some i =>
      simp only [hfind]
      exact hwf.1 t i hfind
    | none =>
      rw [hfind] at hempty
      cases hempty
  · intro hwf
    have hinj : ∀ i j : Fin st.types.length, st.types.get i = st.types.get j → i = j := by
      intro i j hij
      have hi : sigAt st.types i.1 = some (st.types.get i) := sigAt_get _ _ i.2
      have hj : sigAt st.types j.1 = some (st.types.get j) := sigAt_get _ _ j.2
      rw [hij] at hi
      have h1 := hwf.2 i.1 (st.types.get j) hi
      have h2 := hwf.2 j.1 (st.types.get j) hj
      rw [h1] at h2
      exact Fin.ext (Option.some.inj h2)
    exact List.nodup_iff_injective_get.mpr (fun a b hab => hinj a b hab)

def sigI32 : WasmSignature := ⟨[0x7f], WASM_TYPE_NORESULT⟩

/-- Witness for registerType_spec: registering a concrete signature in the
empty table, whose well-formedness the theorem itself supplies. -/
theorem registerType_spec_witness :
    registerType (registerType ⟨[], []⟩ sigI32).2 sigI32 =
      ((registerType ⟨[], []⟩ sigI32).1, (registerType ⟨[], []⟩ sigI32).2)
    ∧ TTWF (registerType ⟨[], []⟩ sigI32).2
    ∧ (⟨[], []⟩ : TypeTableState).types.Nodup :=
  ⟨(registerType_spec ⟨[], []⟩ sigI32).1,
    (registerType_spec ⟨[], []⟩ sigI32).2.2.1 (registerType_spec ⟨[], []⟩ sigI32).2.1,
    (registerType_spec ⟨[], []⟩ sigI32).2.2.2.2.2 (registerType_spec ⟨[], []⟩ sigI32).2.1⟩

/-- Claim C7 (counterexample): looking up a signature that was never
registered emits a recoverable error() diagnostic and continues with the
substitute index 0; no fatal diagnostic is produced, so the link does not
terminate at this point. -/
theorem lookupType_missing_not_fatal :
    lookupType ⟨[], []⟩ unitSig = (0, [LinkDiag.recoverable ("type not found: ")])
    ∧ ∀ m, LinkDiag.fatalErr m ∉ (lookupType ⟨[], []⟩ unitSig).2 := by
  constructor
  · rfl
  · intro m hm
    simp [lookupType, sigFind] at hm

/-- Claim C7 (amended): lookupType on a missing signature reports a
recoverable error through the sink and returns substitute index 0 (the
error count later suppresses the commit); on a registered signature it
returns the stored index with no diagnostic. -/
theorem lookupType_spec (st : TypeTableState) (s : WasmSignature) :
    (sigFind st.typeIndices s = none →
      lookupType st s = (0, [LinkDiag.recoverable ("type not found: ")]))
    ∧ (∀ i, sigFind st.typeIndices s = some i → lookupType st s = (i, [])) := by
  constructor
  · intro h
    unfold lookupType
    rw [h]
  · intro i h
    unfold lookupType
    rw [h]

/-- Witness for lookupType_spec at the empty table. -/
theorem lookupType_spec_witness :
    lookupType ⟨[], []⟩ unitSig = (0, [LinkDiag.recoverable ("type not found: ")]) :=
  (lookupType_spec ⟨[], []⟩ unitSig).1 rfl


/-! Writer::calculateInitFunctions and Writer::createCtorFunction.  Init
entries name a function symbol by id and carry the priority from the
linking metadata; `sigOf` gives a symbol's function type and `fIdx` its
final function index. -/

structure InitEntry where
  sym : Nat
  priority : Nat
deriving DecidableEq

structure InitFile where
  initFuncs : List InitEntry
deriving DecidableEq

structure CtorEnv where
  sigOf : Nat → WasmSignature
  fIdx : Nat → Nat

/-- One element of std::stable_sort's insertion view with the comparator
`L.Priority < R.Priority`: the new element goes after every element with a
priority not greater than its own, so equal priorities keep their input
order. -/
def insEntry (x : InitEntry) : List InitEntry → List InitEntry
  | [] => [x]
  | y :: ys => if y.priority < x.priority then y :: insEntry x ys else x :: y :: ys

/-- The std::stable_sort call of calculateInitFunctions (ascending priority,
stable), realized as insertion sort; stableSort_spec inside
initFunctions_ctor_spec proves the three clauses of the stable_sort
contract that pin the result down uniquely. -/
def stableSortByPriority (l : List InitEntry) : List InitEntry :=
  l.foldr insEntry []

/-- All init entries of all files in file order. -/
def flatInits : List InitFile → List InitEntry
  | [] => []
  | f :: r => f.initFuncs ++ flatInits r

/-- Writer::calculateInitFunctions: gather every file's init functions,
report an error for each whose signature is not `() -> ()` (entries are
recorded regardless), then stable-sort by ascending priority.  The second
component counts the error() calls. -/
def calculateInitFunctions (env : CtorEnv) (files : List InitFile) : List InitEntry × Nat :=
  let g := files.foldl (fun acc f =>
    f.initFuncs.foldl (fun (acc : List InitEntry × Nat) e =>
      (acc.1 ++ [e], if env.sigOf e.sym ≠ unitSig then acc.2 + 1 else acc.2)) acc) ([], 0)
  (stableSortByPriority g.1, g.2)

/-- The BodyContent of createCtorFunction: zero locals, one CALL with the
function index per init entry, END. -/
def ctorBodyContent (env : CtorEnv) (entries : List InitEntry) : List Nat :=
  uleb128 0 ++
  entries.foldl (fun acc e => acc ++ [OPCODE_CALL] ++ uleb128 (env.fIdx e.sym)) [] ++
  [OPCODE_END]

/-- Writer::createCtorFunction: the body length as ULEB then the body. -/
def createCtorFunction (env : CtorEnv) (entries : List InitEntry) : List Nat :=
  uleb128 (ctorBodyContent env entries).length ++ ctorBodyContent env entries

theorem insEntry_perm (x : InitEntry) (l : List InitEntry) :
    (insEntry x l).Perm (x :: l) := by
  induction l with
  | nil => exact List.Perm.refl _
  | cons y ys ih =>
    unfold insEntry
    by_cases h : y.priority < x.priority
    · rw [if_pos h]
      exact List.Perm.trans (List.Perm.cons y ih) (List.Perm.swap x y ys)
    · rw [if_neg h]

theorem insEntry_mem (x z : InitEntry) (l : List InitEntry) :
    z ∈ insEntry x l → z = x ∨ z ∈ l := by
  intro h
  have := (insEntry_perm x l).mem_iff.mp h
  simpa using this

theorem insEntry_sorted (x : InitEntry) (l : List InitEntry) :
    l.Pairwise (fun a b => a.priority ≤ b.priority) →
    (insEntry x l).Pairwise (fun a b => a.priority ≤ b.priority) := by
  induction l with
  | nil => intro _; simp [insEntry]
  | cons y ys ih =>
    intro hp
    rw [List.pairwise_cons] at hp
    obtain ⟨hy, hys⟩ := hp
    unfold insEntry
    by_cases h : y.priority < x.priority
    · rw [if_pos h]
      rw [List.pairwise_cons]
      constructor
      · intro z hz
        rcases insEntry_mem x z ys hz with hz | hz
        · subst hz; omega
        · exact hy z hz
      · exact ih hys
    · rw [if_neg h]
      rw [List.pairwise_cons]
      constructor
      · intro z hz
        rcases List.mem_cons.mp hz with hz | hz
        · subst hz; omega
        · have := hy z hz; omega
      · rw [List.pairwise_cons]
        exact ⟨hy, hys⟩

theorem insEntry_filter (x : InitEntry) (l : List InitEntry) (p : Nat) :
    (insEntry x l).filter (fun e => e.priority == p) =
      if x.priority = p then x :: l.filter (fun e => e.priority == p)
      else l.filter (fun e => e.priority == p) := by
  induction l with
  | nil =>
    by_cases h : x.priority = p
    · have hb : (x.priority == p) = true := by simpa using h
      simp [insEntry, List.filter, hb, h]
    · have hb : (x.priority == p) = false := by simpa using h
      simp [insEntry, List.filter, hb, h]
  | cons y ys ih =>
    unfold insEntry
    by_cases h : y.priority < x.priority
    · rw [if_pos h]
      by_cases hx : x.priority = p
      · have hy : (y.priority == p) = false := by
          simp only [beq_eq_false_iff_ne, ne_eq]
          omega
        simp only [List.filter_cons, hy, ih, if_pos hx]
        simp
      · simp only [List.filter_cons, ih, if_neg hx]
    · rw [if_neg h]
      by_cases hx : x.priority = p
      · have hxb : (x.priority == p) = true := by simpa using hx
        simp [List.filter_cons, hxb, hx]
      · have hxb : (x.priority == p) = false := by simpa using hx
        simp [List.filter_cons, hxb, hx]

theorem stableSort_perm (l : List InitEntry) : (stableSortByPriority l).Perm l := by
  induction l with
  | nil => exact List.Perm.refl _
  | cons a l ih =>
    unfold stableSortByPriority at *
    simp only [List.foldr_cons]
    exact List.Perm.trans (insEntry_perm a (l.foldr insEntry [])) (List.Perm.cons a ih)

theorem stableSort_sorted (l : List InitEntry) :
    (stableSortByPriority l).Pairwise (fun a b => a.priority ≤ b.priority) := by
  induction l with
  | nil => simp [stableSortByPriority]
  | cons a l ih =>
    unfold stableSortByPriority at *
    simp only [List.foldr_cons]
    exact insEntry_sorted a (l.foldr insEntry []) ih

theorem stableSort_stable (l : List InitEntry) (p : Nat) :
    (stableSortByPriority l).filter (fun e => e.priority == p) =
      l.filter (fun e => e.priority == p) := by
  induction l with
  | nil => rfl
  | cons a l ih =>
    unfold stableSortByPriority at *
    simp only [List.foldr_cons, insEntry_filter, List.filter_cons]
    by_cases h : a.priority = p
    · have hb : (a.priority == p) = true := by simpa using h
      simp [h, hb, ih]
    · have hb : (a.priority == p) = false := by simpa using h
      simp [h, hb, ih]

theorem calcInit_gather_entries (env : CtorEnv) :
    ∀ (l : List InitEntry) (acc : List InitEntry × Nat),
      l.foldl (fun (acc : List InitEntry × Nat) e =>
          (acc.1 ++ [e], if env.sigOf e.sym ≠ unitSig then acc.2 + 1 else acc.2)) acc =
        (acc.1 ++ l, acc.2 + (l.filter (fun e => env.sigOf e.sym != unitSig)).length) := by
  intro l
  induction l with
  | nil => intro acc; simp
  | cons e l ih =>
    intro acc
    simp only [List.foldl_cons, ih, List.filter_cons]
    by_cases h : env.sigOf e.sym = unitSig
    · have hb : (env.sigOf e.sym != unitSig) = false := by simpa using h
      simp [h, hb, List.append_assoc]
    · have hb : (env.sigOf e.sym != unitSig) = true := by simpa using h
      simp only [hb]
      simp [h, List.append_assoc, Prod.ext_iff] <;> omega

theorem calcInit_gather (env : CtorEnv) :
    ∀ (files : List InitFile) (acc : List InitEntry × Nat),
      files.foldl (fun acc f =>
          f.initFuncs.foldl (fun (acc : List InitEntry × Nat) e =>
            (acc.1 ++ [e], if env.sigOf e.sym ≠ unitSig then acc.2 + 1 else acc.2)) acc) acc =
        (acc.1 ++ flatInits files,
          acc.2 + ((flatInits files).filter (fun e => env.sigOf e.sym != unitSig)).length) := by
  intro files
  induction files with
  | nil => intro acc; simp [flatInits]
  | cons f r ih =>
    intro acc
    simp only [List.foldl_cons]
    rw [calcInit_gather_entries env f.initFuncs acc, ih]
    simp only [flatInits, List.filter_append, List.append_assoc, List.length_append,
      Prod.mk.injEq]
    refine ⟨by trivial, by omega⟩

theorem ctor_foldl_flatten (env : CtorEnv) (l : List InitEntry) (acc : List Nat) :
    l.foldl (fun acc e => acc ++ [OPCODE_CALL] ++ uleb128 (env.fIdx e.sym)) acc =
      acc ++ (l.map (fun e => OPCODE_CALL :: uleb128 (env.fIdx e.sym))).flatten := by
  induction l generalizing acc with
  | nil => simp
  | cons e l ih =>
    simp only [List.foldl_cons]
    rw [ih]
    simp [List.append_assoc]

/-- Claim C6: calculateInitFunctions reports one error per init function
whose signature is not `() -> ()`, and its result is the ascending-priority
stable sort of the gathered entries: a permutation, pairwise sorted, with
the entries of each fixed priority in unchanged input order;
createCtorFunction then frames `locals = 0`, one CALL with the function
index per entry in that order, and a single END, behind a ULEB length. -/
theorem initFunctions_ctor_spec (env : CtorEnv) (files : List InitFile) :
    (calculateInitFunctions env files).2 =
      ((flatInits files).filter (fun e => env.sigOf e.sym != unitSig)).length
    ∧ ((calculateInitFunctions env files).1).Perm (flatInits files)
    ∧ ((calculateInitFunctions env files).1).Pairwise (fun a b => a.priority ≤ b.priority)
    ∧ (∀ p, ((calculateInitFunctions env files).1).filter (fun e => e.priority == p) =
        (flatInits files).filter (fun e => e.priority == p))
    ∧ ctorBodyContent env (calculateInitFunctions env files).1 =
        uleb128 0 ++
          ((calculateInitFunctions env files).1.map
            (fun e => OPCODE_CALL :: uleb128 (env.fIdx e.sym))).flatten ++ [OPCODE_END]
    ∧ createCtorFunction env (calculateInitFunctions env files).1 =
        uleb128 (ctorBodyContent env (calculateInitFunctions env files).1).length ++
          ctorBodyContent env (calculateInitFunctions env files).1 := by
  have hg := calcInit_gather env files ([], 0)
  unfold calculateInitFunctions
  rw [hg]
  simp only [List.nil_append, Nat.zero_add]
  refine ⟨?_, ?_, ?_, ?_, ?_, ?_⟩
  · trivial
  · exact stableSort_perm _
  · exact stableSort_sorted _
  · intro p
    exact stableSort_stable _ p
  · unfold ctorBodyContent
    rw [ctor_foldl_flatten]
    simp
  · trivial


/-! Writer::calculateExports.  Symbols carry the skip flags and a kind:
DefinedFunction with its function index, DefinedGlobal with its global
index, mutability and whether it is WasmSym::StackPointer, or DefinedData
(promoted to a fake global).  The mutable-global branch is a debug-build
`assert(G == WasmSym::StackPointer)` followed by `continue`; it never calls
error(), which the diags component records, while assertViolations counts
how often the assert condition is violated. -/

inductive ExpKind
  | funcSym (functionIndex : Nat)
  | globalSym (globalIndex : Nat) (isMutable : Bool) (isStackPointer : Bool)
  | dataSym
deriving DecidableEq

structure ExpSym where
  name : String
  kind : ExpKind
  isDefined : Bool
  isHidden : Bool
  isLocal : Bool
  isLive : Bool
deriving DecidableEq

structure ExpConfig where
  relocatable : Bool
  importMemory : Bool
  exportTable : Bool
  exportAll : Bool
deriving DecidableEq

structure WasmExport where
  name : String
  ekind : Nat
  index : Nat
deriving DecidableEq

def WASM_EXTERNAL_FUNCTION : Nat := 0
def WASM_EXTERNAL_TABLE : Nat := 1
def WASM_EXTERNAL_MEMORY : Nat := 2
def WASM_EXTERNAL_GLOBAL : Nat := 3

structure ExportState where
  exports : List WasmExport
  fakeGlobals : List ExpSym
  fakeNext : Nat
  diags : List LinkDiag
  assertViolations : Nat
deriving DecidableEq

/-- The four continue guards of the export loop. -/
def exportSkip (cfg : ExpConfig) (s : ExpSym) : Bool :=
  !s.isDefined || (s.isHidden && !cfg.exportAll) || s.isLocal || !s.isLive

/-- One loop iteration of calculateExports. -/
def calculateExportsStep (cfg : ExpConfig) (st : ExportState) (s : ExpSym) : ExportState :=
  if exportSkip cfg s then st
  else
    match s.kind with
    | ExpKind.funcSym i =>
      ⟨st.exports ++ [⟨s.name, WASM_EXTERNAL_FUNCTION, i⟩], st.fakeGlobals, st.fakeNext,
        st.diags, st.assertViolations⟩
    | ExpKind.globalSym g m sp =>
      if m then
        ⟨st.exports, st.fakeGlobals, st.fakeNext, st.diags,
          st.assertViolations + (if sp then 0 else 1)⟩
      else
        ⟨st.exports ++ [⟨s.name, WASM_EXTERNAL_GLOBAL, g⟩], st.fakeGlobals, st.fakeNext,
          st.diags, st.assertViolations⟩
    | ExpKind.dataSym =>
      ⟨st.exports ++ [⟨s.name, WASM_EXTERNAL_GLOBAL, st.fakeNext⟩], st.fakeGlobals ++ [s],
        st.fakeNext + 1, st.diags, st.assertViolations⟩

/-- Writer::calculateExports: nothing when relocatable; otherwise the
memory export (unless imported), the table export (when requested), then
the symbol loop with FakeGlobalIndex starting at
NumImportedGlobals + InputGlobals.size(). -/
def calculateExports (cfg : ExpConfig) (numImportedGlobals numInputGlobals : Nat)
    (syms : List ExpSym) : ExportState :=
  if cfg.relocatable then ⟨[], [], numImportedGlobals + numInputGlobals, [], 0⟩
  else
    syms.foldl (calculateExportsStep cfg)
      ⟨(if !cfg.importMemory then [⟨"memory", WASM_EXTERNAL_MEMORY, 0⟩] else []) ++
        (if cfg.exportTable then [⟨"__indirect_function_table", WASM_EXTERNAL_TABLE, 0⟩] else []),
        [], numImportedGlobals + numInputGlobals, [], 0⟩

/-- The per-symbol export records with the fake-global counter threaded:
functions export their function index, non-mutable globals their global
index, mutable globals (stack pointer included) are skipped, data symbols
take the next fake-global index. -/
def exportEntryList (fakeStart : Nat) : List ExpSym → List WasmExport
  | [] => []
  | s :: rest =>
    match s.kind with
    | ExpKind.funcSym i =>
      ⟨s.name, WASM_EXTERNAL_FUNCTION, i⟩ :: exportEntryList fakeStart rest
    | ExpKind.globalSym g m _ =>
      if m then exportEntryList fakeStart rest
      else ⟨s.name, WASM_EXTERNAL_GLOBAL, g⟩ :: exportEntryList fakeStart rest
    | ExpKind.dataSym =>
      ⟨s.name, WASM_EXTERNAL_GLOBAL, fakeStart⟩ :: exportEntryList (fakeStart + 1) rest

/-- A mutable global other than the stack pointer, the situation the claim
says is reported through the error sink. -/
def mutableNonSP (s : ExpSym) : Bool :=
  match s.kind with
  | ExpKind.globalSym _ m sp => m && !sp
  | _ => false

def isDataKind (s : ExpSym) : Bool :=
  match s.kind with
  | ExpKind.dataSym => true
  | _ => false

theorem calculateExports_general (cfg : ExpConfig) :
    ∀ (syms : List ExpSym) (st : ExportState),
      syms.foldl (calculateExportsStep cfg) st =
        ⟨st.exports ++ exportEntryList st.fakeNext (syms.filter (fun s => !exportSkip cfg s)),
          st.fakeGlobals ++ (syms.filter (fun s => !exportSkip cfg s)).filter isDataKind,
          st.fakeNext + ((syms.filter (fun s => !exportSkip cfg s)).filter isDataKind).length,
          st.diags,
          st.assertViolations +
            ((syms.filter (fun s => !exportSkip cfg s)).filter mutableNonSP).length⟩ := by
  intro syms
  induction syms with
  | nil => intro st; simp [exportEntryList]
  | cons s l ih =>
    intro st
    simp only [List.foldl_cons, ih, List.filter_cons]
    by_cases hskip : exportSkip cfg s = true
    · have hb : (!exportSkip cfg s) = false := by simp [hskip]
      simp [calculateExportsStep, hskip, hb]
    · have hb : (!exportSkip cfg s) = true := by simp [Bool.eq_false_iff.mpr hskip]
      simp only [hb, if_true]
      cases hk : s.kind with
      | funcSym i =>
        have hd : isDataKind s = false := by simp [isDataKind, hk]
        have hm : mutableNonSP s = false := by simp [mutableNonSP, hk]
        simp [calculateExportsStep, hskip, hk, exportEntryList, hd, hm, List.filter_cons,
          List.append_assoc]
      | globalSym g m sp =>
        cases m with
        | false =>
          have hd : isDataKind s = false := by simp [isDataKind, hk]
          have hm : mutableNonSP s = false := by simp [mutableNonSP, hk]
          simp [calculateExportsStep, hskip, hk, exportEntryList, hd, hm, List.filter_cons,
            List.append_assoc]
        | true =>
          have hd : isDataKind s = false := by simp [isDataKind, hk]
          cases sp with
          | false =>
            have hm : mutableNonSP s = true := by simp [mutableNonSP, hk]
            simp only [calculateExportsStep, hskip, hk, exportEntryList, hd, hm,
              List.filter_cons, if_false, Bool.false_eq_true, if_true, ite_true, ite_false]
            simp [exportEntryList]
            omega
          | true =>
            have hm : mutableNonSP s = false := by simp [mutableNonSP, hk]
            simp only [calculateExportsStep, hskip, hk, exportEntryList, hd, hm,
              List.filter_cons, if_false, Bool.false_eq_true, if_true, ite_true, ite_false]
            simp [exportEntryList]
      | dataSym =>
        have hd : isDataKind s = true := by simp [isDataKind, hk]
        have hm : mutableNonSP s = false := by simp [mutableNonSP, hk]
        simp only [calculateExportsStep, hskip, hk, exportEntryList, hd, hm, List.filter_cons,
          ite_true, ite_false]
        simp [exportEntryList, List.append_assoc]
        omega

/-- Claim C8 (counterexample): a defined, live, non-local, non-hidden
mutable global that is not the stack pointer passes every filter, yet
calculateExports reports nothing through the error sink (no diagnostics),
does not export it, and only a debug-build assertion notices. -/
theorem calculateExports_mutable_global_no_diag :
    (calculateExports ⟨false, true, false, false⟩ 0 0
        [⟨"g1", ExpKind.globalSym 4 true false, true, false, false, true⟩]).diags = []
    ∧ (calculateExports ⟨false, true, false, false⟩ 0 0
        [⟨"g1", ExpKind.globalSym 4 true false, true, false, false, true⟩]).exports = []
    ∧ (calculateExports ⟨false, true, false, false⟩ 0 0
        [⟨"g1", ExpKind.globalSym 4 true false, true, false, false, true⟩]).assertViolations
        = 1 := by
  refine ⟨by decide, by decide, by decide⟩

/-- Claim C8 (amended): in a non-relocatable link calculateExports never
reports through the error sink; its export list is the optional memory and
table exports followed by, for every defined live non-local
non-hidden-unless-export-all symbol: functions with their function index,
non-mutable globals with their global index, mutable globals skipped
silently (the debug assert counts the non-stack-pointer ones), and data
symbols promoted to consecutive fake-global indices. -/
theorem calculateExports_spec (cfg : ExpConfig) (numImportedGlobals numInputGlobals : Nat)
    (syms : List ExpSym) (hrel : cfg.relocatable = false) :
    (calculateExports cfg numImportedGlobals numInputGlobals syms).diags = []
    ∧ (calculateExports cfg numImportedGlobals numInputGlobals syms).exports =
        (if !cfg.importMemory then [⟨"memory", WASM_EXTERNAL_MEMORY, 0⟩] else []) ++
        (if cfg.exportTable then [⟨"__indirect_function_table", WASM_EXTERNAL_TABLE, 0⟩]
          else []) ++
        exportEntryList (numImportedGlobals + numInputGlobals)
          (syms.filter (fun s => !exportSkip cfg s))
    ∧ (calculateExports cfg numImportedGlobals numInputGlobals syms).assertViolations =
        ((syms.filter (fun s => !exportSkip cfg s)).filter mutableNonSP).length := by
  unfold calculateExports
  rw [if_neg (by simp [hrel])]
  rw [calculateExports_general cfg syms]
  refine ⟨rfl, by simp [List.append_assoc], by simp⟩

/-- Witness for calculateExports_spec at the counterexample input. -/
theorem calculateExports_spec_witness :
    (calculateExports ⟨false, true, false, false⟩ 0 0
        [⟨"g1", ExpKind.globalSym 4 true false, true, false, false, true⟩]).diags = [] :=
  (calculateExports_spec ⟨false, true, false, false⟩ 0 0
    [⟨"g1", ExpKind.globalSym 4 true false, true, false, false, true⟩] rfl).1

end LldWasm
